import Mathlib

/-!
Verification of the esptool.js bootloader-protocol driver (toitware/esptool.js).

Shallow embedding of the TypeScript sources `src/util.ts`, `src/index.ts` and
`src/reader.ts`.  Bytes are modelled as `Nat`; a `Uint8Array` store truncates
the written value mod 256, which is made explicit (`% 256` / `&&& 0xff`)
exactly where the JavaScript typed-array semantics performs it.  The growable
`Uint8Buffer` is modelled as the list of bytes in its written region
(positions `0 ..< writeOffset` of the backing store) together with an explicit
`readOffset` where one is needed.
-/

namespace EsptoolJs

/-! ## Uint8Buffer and the SLIP codec (src/util.ts) -/

/-- Scan of `Uint8Buffer.packet`'s `for` loop: index of the first `0xC0` byte
in `l`, reported relative to an absolute start index `i0` (the list `l` stands
for the bytes of the store from absolute position `i0` on). -/
def findC0From : List Nat → Nat → Option Nat
  | [], _ => none
  | b :: rest, i0 => if b = 0xc0 then some i0 else findC0From rest (i0 + 1)

/-- Embedding of `Uint8Buffer.packet()` from src/util.ts (lines 287-305).  `storage` is the
written region of the backing store (positions `0 ..< writeOffset`) and
`readOffset` the current read offset.  The source scans from `readOffset` for
a first `0xC0` (setting `dataStart = i + 1`), then for a second one (setting
`dataEnd = i - 1` and breaking).  It then sets `readOffset = dataEnd + 1` and
returns `new Uint8Array(this._buffer, dataStart, dataEnd)` — the third
argument of that constructor is a *length*, so the view starts at absolute
position `dataStart` and has `dataEnd` elements.  The result is the pair of
the returned view and the new read offset (`none` when no two `0xC0` bytes
are found, in which case the offset is unchanged).  The model reads the view
out of the written region; for the inputs considered here the view never
extends past the write offset (in the source it would continue into the
zero-initialised spare capacity of the `ArrayBuffer`). -/
def packetFun (storage : List Nat) (readOffset : Nat) : Option (List Nat × Nat) :=
  match findC0From (storage.drop readOffset) readOffset with
  | none => none
  | some i =>
    match findC0From (storage.drop (i + 1)) (i + 1) with
    | none => none
    | some j =>
      let dataStart := i + 1
      let dataEnd := j - 1
      some ((storage.drop dataStart).take dataEnd, dataEnd + 1)

/-- Embedding of `Uint8BufferSlipEncode.slipEncodeByte` (src/util.ts lines 374-382):
`0xDB ↦ 0xDB 0xDD`, `0xC0 ↦ 0xDB 0xDC`, anything else is pushed unchanged
(the `Uint8Array` store truncates it mod 256). -/
def slipEncodeByte (v : Nat) : List Nat :=
  if v = 0xdb then [0xdb, 0xdd]
  else if v = 0xc0 then [0xdb, 0xdc]
  else [v % 256]

/-- The effect of writing a byte sequence through the buffer while
`slipEncode` is set (`push`/`copy` feed every byte to `slipEncodeByte`). -/
def slipEncodeList : List Nat → List Nat
  | [] => []
  | v :: rest => slipEncodeByte v ++ slipEncodeList rest

/-- The in-place decode loop of `Uint8BufferSlipEncode.packet(slipDecode)`
(src/util.ts lines 354-365): the sequence of decoded bytes it writes at
`res[writeOffset++]`.  A `0xDB 0xDD` pair yields `0xDB`, a `0xDB 0xDC` pair
yields `0xC0`, any other byte (including a trailing lone `0xDB`) is copied. -/
def slipDecodeLoop : List Nat → List Nat
  | 0xdb :: 0xdd :: rest => 0xdb :: slipDecodeLoop rest
  | 0xdb :: 0xdc :: rest => 0xc0 :: slipDecodeLoop rest
  | b :: rest => b :: slipDecodeLoop rest
  | [] => []

/-- The packet returned by `Uint8BufferSlipEncode.packet(slipDecode = true)`
for a raw (already unframed) packet `l`: the loop rewrites the first
`writeOffset` cells of the view in place with the decoded bytes, the statement
`res.slice(0, writeOffset);` computes a shrunken copy whose result is
discarded, and the original full-length view `res` is returned — decoded
bytes followed by the untouched tail of the escaped input. -/
def slipDecodePacketResult (l : List Nat) : List Nat :=
  slipDecodeLoop l ++ l.drop (slipDecodeLoop l).length

/-- A SLIP frame as assembled for a byte sequence `B`: opening `0xC0`, the
bytes of `B` written through the buffer with `slipEncode` on, closing `0xC0`. -/
def slipEncodeFramed (B : List Nat) : List Nat :=
  0xc0 :: slipEncodeList B ++ [0xc0]

/-- Round trip of the codec: frame `B` with SLIP encoding, then extract it
with `Uint8BufferSlipEncode.packet(slipDecode = true)` from a buffer holding
exactly the frame (read offset 0). -/
def slipRoundTrip (B : List Nat) : Option (List Nat) :=
  match packetFun (slipEncodeFramed B) 0 with
  | some (v, _) => some (slipDecodePacketResult v)
  | none => none

/-! ## Packing and checksums (src/index.ts) -/

/-- Little-endian byte serialisation of `pushBytes` (src/index.ts and
src/util.ts): byte `i` is `(value >> (i * 8)) & 0xff`.  All packed values in
the driver are below `2^31`, so the JavaScript 32-bit shift agrees with the
`Nat` shift used here. -/
def leBytes (value byteCount : Nat) : List Nat :=
  (List.range byteCount).map fun i => (value >>> (i * 8)) &&& 0xff

/-- Embedding of `pack("H", v)`: two little-endian bytes. -/
def packH (v : Nat) : List Nat := leBytes v 2

/-- Embedding of `pack("I", v)` / `pack("<I", v)`: four little-endian bytes. -/
def packI (v : Nat) : List Nat := leBytes v 4

/-- Embedding of `pack("<II", a, b)`. -/
def packII (a b : Nat) : List Nat := packI a ++ packI b

/-- Embedding of `pack("<IIII", a, b, c, d)`. -/
def packIIII (a b c d : Nat) : List Nat := packI a ++ packI b ++ packI c ++ packI d

/-- Embedding of `ESP_CHECKSUM_MAGIC` (src/index.ts line 943). -/
def ESP_CHECKSUM_MAGIC : Nat := 0xef

/-- Embedding of `EspLoader.checksum` (src/index.ts lines 1295-1300): XOR-fold of the data
bytes over an initial state (default `0xEF`). -/
def checksum (data : List Nat) (state : Nat := ESP_CHECKSUM_MAGIC) : Nat :=
  data.foldl (fun s b => s ^^^ b) state

/-! ## Command frames (src/index.ts, EspLoader.sendCommand) -/

/-- Embedding of `EspLoader.sendCommand` (src/index.ts lines 1252-1270): the byte sequence
written to the stream.  Opening `0xC0`, direction `0x00`, the opcode and the
16-bit little-endian payload length pushed with `slipEncode` off (the opcode
is truncated mod 256 by the `Uint8Array` store), then with `slipEncode` on the
32-bit little-endian checksum and the payload, then the closing `0xC0` with
the flag off again. -/
def sendCommandFrame (opcode : Nat) (payload : List Nat) (ck : Nat) : List Nat :=
  0xc0 :: 0x00 :: (opcode % 256) :: packH payload.length
    ++ slipEncodeList (packI ck ++ payload) ++ [0xc0]

/-! ## Flash write state machine (src/index.ts) -/

/-- Embedding of `FLASH_WRITE_SIZE` (src/index.ts line 910). -/
def FLASH_WRITE_SIZE : Nat := 0x400

/-- Embedding of `STUB_FLASH_WRITE_SIZE` (src/index.ts line 911). -/
def STUB_FLASH_WRITE_SIZE : Nat := 0x4000

/-- Embedding of `FLASH_SECTOR_SIZE` (src/index.ts line 914). -/
def FLASH_SECTOR_SIZE : Nat := 0x1000

/-- Embedding of `MEM_END_ROM_TIMEOUT` (src/index.ts line 953). -/
def MEM_END_ROM_TIMEOUT : Nat := 50

/-- Embedding of `DEFAULT_TIMEOUT` (src/index.ts line 948). -/
def DEFAULT_TIMEOUT : Nat := 3000

/-- Embedding of `ESP_MEM_END` (src/index.ts line 933). -/
def ESP_MEM_END : Nat := 0x06

/-- Embedding of `EspLoader.getFlashWriteSize` (src/index.ts lines 1347-1352):
`STUB_FLASH_WRITE_SIZE` when the stub is running, `FLASH_WRITE_SIZE`
otherwise (no chip-family distinction). -/
def getFlashWriteSize (isStub : Bool) : Nat :=
  if isStub then STUB_FLASH_WRITE_SIZE else FLASH_WRITE_SIZE

/-- The `numBlocks` computation of `EspLoader.flashBegin` (src/index.ts line
1424): `Math.floor((size + flashWriteSize - 1) / flashWriteSize)`. -/
def flashBeginNumBlocks (size ws : Nat) : Nat := (size + ws - 1) / ws

/-- Embedding of `padTo` (src/index.ts lines 1610-1619): pad `image` with `0xFF` to a
multiple of `alignment`. -/
def padTo (image : List Nat) (alignment : Nat) (padding : Nat := 0xff) : List Nat :=
  let pad := image.length % alignment
  if pad = 0 then image
  else image ++ List.replicate (alignment - pad) padding

/-- The block decomposition performed by `EspLoader.flashData`'s `while` loop
(src/index.ts lines 1374-1390): successive `flashWriteSize`-byte slices of the
padded image; the final slice is whatever remains.  The source's loop does not
terminate on a (never occurring) zero write size; that unreachable case is
mapped to the empty decomposition. -/
def blocksOf (l : List Nat) (ws : Nat) : List (List Nat) :=
  if _h : l = [] ∨ ws = 0 then []
  else l.take ws :: blocksOf (l.drop ws) ws
termination_by l.length
decreasing_by
  simp only [List.length_drop]
  rw [not_or] at _h
  rcases l with _ | ⟨a, l⟩
  · exact absurd rfl _h.1
  · have hws : ws ≠ 0 := _h.2
    simp only [List.length_cons]
    omega

/-- The payload of the `FLASH_DATA` command assembled by
`EspLoader.flashBlock` (src/index.ts lines 1399-1409): header
`<IIII>(flashWriteSize, seq, 0, 0)`, the block bytes, and `0xFF` filling up to
`flashWriteSize` when the block is short. -/
def flashBlockPayload (data : List Nat) (ws seq : Nat) : List Nat :=
  packIIII ws seq 0 0 ++ data ++
    (if data.length < ws then List.replicate (ws - data.length) 0xff else [])

/-- The checksum argument `EspLoader.flashBlock` passes to `checkCommand`:
`EspLoader.checksum(data)` over the unpadded block bytes only. -/
def flashBlockSentChecksum (data : List Nat) : Nat := checksum data

/-- Embedding of `EspLoader.getEraseSize` (src/index.ts lines 1475-1491), the ESP8266
erase-size workaround.  In the small-region branch the source computes
`Math.floor(((numSectors + 1) / 2) * sectorSize)` — the `/ 2` is JavaScript
float division and the `floor` is applied after the multiplication.  Since
`sectorSize = 0x1000` is even, `((numSectors + 1) / 2) * sectorSize` is an
exactly representable integer, namely `(numSectors + 1) * sectorSize / 2`, and
the `floor` is the identity on it; the branch is embedded as that integer. -/
def getEraseSize (offset size : Nat) : Nat :=
  let sectorsPerBlock := 16
  let sectorSize := FLASH_SECTOR_SIZE
  let numSectors := (size + sectorSize - 1) / sectorSize
  let startSector := offset / sectorSize
  let headSectors0 := sectorsPerBlock - startSector % sectorsPerBlock
  let headSectors := if numSectors < headSectors0 then numSectors else headSectors0
  if numSectors < 2 * headSectors then
    (numSectors + 1) * sectorSize / 2
  else
    (numSectors - headSectors) * sectorSize

/-- Exact mathematical ceiling of `a / b` for `b > 0`, following the spec's
words "num_blocks = ceil(size / write_size)" (spec §4.6); used to compare the
source's `numBlocks` computation against the spec. -/
def specCeil (a b : Nat) : Nat := a / b + (if a % b = 0 then 0 else 1)

/-! ## mem_finish (src/index.ts) -/

/-- Outcome of a `checkCommand` call, as seen by `memFinish`. -/
inductive CmdError where
  | timeout
  | invalidResponse
  deriving DecidableEq

/-- Embedding of `EspLoader.memFinish` (src/index.ts lines 1535-1538), parameterised by the
outcome `outcome` of its single `checkCommand(ESP_MEM_END, data, 0,
MEM_END_ROM_TIMEOUT)` call.  The result records the opcode, payload and
timeout of that call together with what `memFinish` itself returns: the
source has no `try`/`catch`, so a command error propagates unchanged. -/
def memFinishB (entrypoint : Nat) (outcome : Except CmdError (List Nat)) :
    (Nat × List Nat × Nat) × Except CmdError Unit :=
  ((ESP_MEM_END, packII (if entrypoint = 0 then 1 else 0) entrypoint, MEM_END_ROM_TIMEOUT),
   outcome.map fun _ => ())

/-- The older `EspLoader.memFinish` variant (src/index.ts lines 728-738):
timeout `DEFAULT_TIMEOUT` under stub and `MEM_END_ROM_TIMEOUT` under ROM, and
a `try`/`catch` that re-throws only when the stub is running. -/
def memFinishA (isStub : Bool) (entrypoint : Nat) (outcome : Except CmdError (List Nat)) :
    (Nat × List Nat × Nat) × Except CmdError Unit :=
  ((ESP_MEM_END, packII (if entrypoint = 0 then 1 else 0) entrypoint,
      if isStub then DEFAULT_TIMEOUT else MEM_END_ROM_TIMEOUT),
   match outcome with
   | .ok _ => .ok ()
   | .error e => if isStub then .error e else .ok ())

/-! ## Reader (src/reader.ts) -/

/-- Error sentinels of src/errors.ts used by the reader. -/
inductive ReaderErr where
  | notListening
  | notRunning
  | timeout
  | alreadyRunning
  deriving DecidableEq

/-- The reader state tracked by the embedding: the `running` flag, the
listener reference count (`listenRef`, a JavaScript number that the unlisten
closure can drive below zero before it throws), and the retained bytes of the
inbound `Uint8Buffer`. -/
structure ReaderState where
  running : Bool
  listenRef : Int
  buffer : List Nat
  deriving DecidableEq

/-- Modelled from the spec: `Uint8Buffer.view(reset)` with `reset = true`.
`Reader.read` (src/reader.ts line 180) calls `this.buffer.view(true)`, but
both revisions of src/util.ts included under src/ declare `view()` without a
reset parameter — the revision of `Uint8Buffer` that reader.ts builds against
is missing.  Per the spec ("returns a snapshot view and clears the buffer"),
the call returns the buffered bytes and resets the buffer. -/
def viewReset (st : ReaderState) : List Nat × ReaderState :=
  (st.buffer, { st with buffer := [] })

/-- Embedding of `Reader.read(minLength, timeoutMs)` (src/reader.ts lines 174-181).  A
non-positive `listenRef` fails with `NotListening`; `waitData` then fails with
`NotRunning` when the reader is not running, and otherwise suspends until at
least `minLength` bytes are buffered — a wait that, with no further traffic,
ends in the completer's `Timeout` rejection, which is how the insufficient
case is modelled here.  With enough bytes buffered it returns
`this.buffer.view(true)`. -/
def readFun (minLength : Nat) (st : ReaderState) :
    Except ReaderErr (List Nat × ReaderState) :=
  if st.listenRef ≤ 0 then .error .notListening
  else if st.running = false then .error .notRunning
  else if st.buffer.length < minLength then .error .timeout
  else .ok (viewReset st)

/-- Events of the reader state machine.  `chunk` is the background `run` loop
receiving a transport chunk (src/reader.ts lines 91-97); `silentReset` is one
`waitSilent` iteration's `this.buffer.reset()` (line 160); `readEv` and
`packetEv` are the public `read`/`packet` operations; `listen`/`unlisten` are
`Reader.listen` and the closure it returns (lines 124-138). -/
inductive Ev where
  | start
  | stop
  | chunk (data : List Nat)
  | listen
  | unlisten
  | silentReset
  | readEv (minLength : Nat)
  | packetEv

/-- One step of the reader state machine: `(threw, post-state)`.  The
post-state records the mutations performed up to the throw point — in
particular the unlisten closure decrements `listenRef` *before* it checks for
a negative count, so a throwing unlisten leaves the decremented count behind.
`packetEv` consumes a SLIP packet from the buffer via `Uint8Buffer.packet`
(the retained bytes become those after the advanced read offset); a buffer
with no packet leaves the state unchanged (the source waits for more bytes). -/
def stepT (e : Ev) (st : ReaderState) : Bool × ReaderState :=
  match e with
  | .start =>
    if st.running then (true, st)
    else (false, { st with running := true, buffer := [] })
  | .stop =>
    if st.running then (false, { st with running := false, buffer := [] })
    else (true, st)
  | .chunk data =>
    (false, if st.running ∧ 0 < st.listenRef then { st with buffer := st.buffer ++ data } else st)
  | .listen =>
    if st.running then (false, { st with listenRef := st.listenRef + 1 })
    else (true, st)
  | .unlisten =>
    let r := st.listenRef - 1
    if r < 0 then (true, { st with listenRef := r })
    else if r = 0 then (false, { st with listenRef := r, buffer := [] })
    else (false, { st with listenRef := r })
  | .silentReset =>
    (false, { st with buffer := [] })
  | .readEv minLength =>
    match readFun minLength st with
    | .ok (_, st') => (false, st')
    | .error _ => (true, st)
  | .packetEv =>
    if st.listenRef ≤ 0 then (true, st)
    else
      match packetFun st.buffer 0 with
      | some (_, newOffset) => (false, { st with buffer := st.buffer.drop newOffset })
      | none => (false, st)

/-- The freshly constructed reader: not running, no listeners, empty buffer. -/
def initReader : ReaderState :=
  { running := false, listenRef := 0, buffer := [] }

/-- The state after executing a sequence of events from the initial state,
keeping the post-state of throwing operations as well. -/
def runTrace (tr : List Ev) : ReaderState :=
  tr.foldl (fun st e => (stepT e st).2) initReader

/-- The state after executing a sequence of events from the initial state,
`none` as soon as any operation throws. -/
def runTraceOk (tr : List Ev) : Option ReaderState :=
  tr.foldl
    (fun acc e => acc.bind fun st =>
      let r := stepT e st
      if r.1 then none else some r.2)
    (some initReader)

end EsptoolJs

namespace EsptoolJs

/-! ## Theorems for claims C1 and C2 -/

/-- C1: the claim states that `packet()` returns exactly the bytes strictly
between the first two `0xC0` bytes of the unread region and advances
`read_offset` past the closing `0xC0`.  Evaluating the embedded code at the
unread region `[0x01, 0xC0, 0xAA, 0xC0]` (read offset 0): the code returns
the two-byte view `[0xAA, 0xC0]` (the `Uint8Array` length argument is the
absolute index `dataEnd`, not the gap) and sets the read offset to 3, the
index of the closing `0xC0` itself — whereas the claim demands the one-byte
`[0xAA]` and read offset 4. -/
theorem packet_c1_eval :
    packetFun [0x01, 0xc0, 0xaa, 0xc0] 0 = some ([0xaa, 0xc0], 3) ∧
    some (([0xaa, 0xc0] : List Nat), 3) ≠ some (([0xaa] : List Nat), 4) := by
  decide

/-- C2: the claim states `slip_decode(slip_encode(B)) = B`, with the correct
length even when `B` contains `0xDB` or `0xC0`.  Evaluating the embedded code
at `B = [0xC0]`: the frame is `[0xC0, 0xDB, 0xDC, 0xC0]`, and
`packet(slipDecode = true)` returns the two-byte `[0xC0, 0xDC]` — the decode
loop writes `0xC0` in place but the shrunken copy `res.slice(0, writeOffset)`
is discarded, so the stale second byte of the escape pair is kept. -/
theorem slipRoundTrip_c2_eval :
    slipRoundTrip [0xc0] = some [0xc0, 0xdc] ∧
    some ([0xc0, 0xdc] : List Nat) ≠ some ([0xc0] : List Nat) := by
  decide

/-! ## Helper lemmas on the flash-write arithmetic -/

theorem xor_foldl_replicate_even (s c k : Nat) :
    List.foldl (fun a b => a ^^^ b) s (List.replicate (2 * k) c) = s := by
  induction k generalizing s with
  | zero => rfl
  | succ k ih =>
    have h2 : 2 * (k + 1) = (2 * k).succ.succ := by omega
    rw [h2, List.replicate_succ, List.replicate_succ, List.foldl_cons, List.foldl_cons,
      Nat.xor_assoc, Nat.xor_self, Nat.xor_zero]
    exact ih s

theorem checksum_append_even_pad (b : List Nat) (p c : Nat) (hp : 2 ∣ p) :
    checksum (b ++ List.replicate p c) = checksum b := by
  obtain ⟨k, rfl⟩ := hp
  unfold checksum
  rw [List.foldl_append]
  exact xor_foldl_replicate_even _ c k

theorem padTo_length_dvd (l : List Nat) (a : Nat) (ha : 0 < a) :
    a ∣ (padTo l a).length := by
  unfold padTo
  by_cases h : l.length % a = 0
  · simpa [h] using (Nat.dvd_of_mod_eq_zero h)
  · rw [if_neg h]
    simp only [List.length_append, List.length_replicate]
    have h1 : a ∣ (l.length - l.length % a) := Nat.dvd_sub_mod _
    have h2 : l.length % a < a := Nat.mod_lt _ ha
    have h3 : l.length % a ≤ l.length := Nat.mod_le _ _
    have h4 : l.length + (a - l.length % a) = (l.length - l.length % a) + a := by omega
    rw [h4]
    exact Nat.dvd_add h1 dvd_rfl

theorem blocksOf_mem_length_dvd (d : Nat) :
    ∀ (n : Nat) (l : List Nat), l.length ≤ n → ∀ ws, d ∣ ws → d ∣ l.length →
      ∀ b ∈ blocksOf l ws, d ∣ b.length := by
  intro n
  induction n with
  | zero =>
    intro l hl ws _ _ b hb
    have : l = [] := List.eq_nil_of_length_eq_zero (Nat.le_zero.mp hl)
    subst this
    rw [blocksOf] at hb
    simp at hb
  | succ n ih =>
    intro l hl ws hdws hdl b hb
    rw [blocksOf] at hb
    by_cases hc : l = [] ∨ ws = 0
    · simp [hc] at hb
    · rw [dif_neg hc] at hb
      rw [not_or] at hc
      rcases List.mem_cons.mp hb with hb | hb
      · subst hb
        rw [List.length_take]
        rcases Nat.le_total ws l.length with hle | hle
        · rwa [Nat.min_eq_left hle]
        · rwa [Nat.min_eq_right hle]
      · have hlen : (l.drop ws).length ≤ n := by
          rw [List.length_drop]
          have : l.length ≠ 0 := fun h0 => hc.1 (List.eq_nil_of_length_eq_zero h0)
          have : 0 < ws := Nat.pos_of_ne_zero hc.2
          omega
        have hdrop : d ∣ (l.drop ws).length := by
          rw [List.length_drop]
          exact Nat.dvd_sub' hdl hdws
        exact ih (l.drop ws) hlen ws hdws hdrop b hb

theorem numBlocks_eq_specCeil (size ws : Nat) (hws : 0 < ws) :
    flashBeginNumBlocks size ws = specCeil size ws := by
  unfold flashBeginNumBlocks specCeil
  rcases Nat.eq_zero_or_pos size with rfl | hpos
  · simp [Nat.div_eq_of_lt (by omega : ws - 1 < ws)]
  · have hsz : size + ws - 1 = (size - 1) + ws := by omega
    rw [hsz, Nat.add_div_right _ hws]
    have hsucc : size = (size - 1) + 1 := by omega
    by_cases hd : size % ws = 0
    · have hdvd : ws ∣ size := Nat.dvd_of_mod_eq_zero hd
      have : size / ws = (size - 1) / ws + 1 := by
        conv_lhs => rw [hsucc]
        rw [Nat.succ_div, if_pos (by rwa [← hsucc])]
      simp [hd, this]
    · have hdvd : ¬ ws ∣ size := fun h => hd (Nat.eq_zero_of_dvd_of_lt h |> fun _ => by
        exact absurd (Nat.mod_eq_zero_of_dvd h) hd)
      have : size / ws = (size - 1) / ws := by
        conv_lhs => rw [hsucc]
        rw [Nat.succ_div, if_neg (by rwa [← hsucc]), Nat.add_zero]
      simp [hd, this]

theorem specCeil_rec (n ws : Nat) (hws : 0 < ws) (hn : 0 < n) :
    specCeil n ws = specCeil (n - ws) ws + 1 := by
  unfold specCeil
  rcases Nat.lt_or_ge n ws with hlt | hge
  · have h1 : n - ws = 0 := by omega
    have h2 : n / ws = 0 := Nat.div_eq_of_lt hlt
    have h3 : n % ws = n := Nat.mod_eq_of_lt hlt
    rw [h1, h2, h3, if_neg (Nat.pos_iff_ne_zero.mp hn)]
    simp
  · rw [Nat.div_eq_sub_div hws hge, Nat.mod_eq_sub_mod hge]
    by_cases h : (n - ws) % ws = 0 <;> simp [h]

theorem blocksOf_length_aux (ws : Nat) (hws : 0 < ws) :
    ∀ (n : Nat) (l : List Nat), l.length ≤ n →
      (blocksOf l ws).length = specCeil l.length ws := by
  intro n
  induction n with
  | zero =>
    intro l hl
    have : l = [] := List.eq_nil_of_length_eq_zero (Nat.le_zero.mp hl)
    subst this
    rw [blocksOf]
    simp [specCeil]
  | succ n ih =>
    intro l hl
    rw [blocksOf]
    by_cases hc : l = [] ∨ ws = 0
    · rcases hc with rfl | rfl
      · simp [specCeil]
      · omega
    · rw [dif_neg hc, not_or] at *
      have hnil : l ≠ [] := hc.1
      have hpos : 0 < l.length := List.length_pos.mpr hnil
      have hlen : (l.drop ws).length ≤ n := by
        rw [List.length_drop]; omega
      rw [List.length_cons, ih (l.drop ws) hlen, List.length_drop]
      rw [specCeil_rec l.length ws hws hpos]

/-! ## Theorems for claims C3, C4 and C5 -/

/-- C3: for every `flash_data` call, the checksum sent with each `FLASH_DATA`
block command (computed by the code over the unpadded block bytes only)
equals the XOR, initialised with `0xEF`, over the full `write_size`-byte
block payload including the trailing `0xFF` padding of the final partial
block.  This holds because `flash_data` first pads the image to a multiple of
4 (32 when encrypted), the write size is a multiple of 4, so every block's
`0xFF` padding has even length and the padding bytes cancel under XOR. -/
theorem flashData_block_checksum_c3 (data : List Nat) (encrypted isStub : Bool)
    (b : List Nat)
    (hb : b ∈ blocksOf (padTo data (if encrypted then 32 else 4)) (getFlashWriteSize isStub)) :
    flashBlockSentChecksum b
      = checksum (b ++ List.replicate (getFlashWriteSize isStub - b.length) 0xff) := by
  have hws4 : (4 : Nat) ∣ getFlashWriteSize isStub := by
    cases isStub <;> decide
  have hal : (0 : Nat) < (if encrypted then 32 else 4) := by
    cases encrypted <;> decide
  have hal4 : (4 : Nat) ∣ (if encrypted then 32 else 4) := by
    cases encrypted <;> decide
  have hpad4 : (4 : Nat) ∣ (padTo data (if encrypted then 32 else 4)).length :=
    dvd_trans hal4 (padTo_length_dvd data _ hal)
  have hb4 : (4 : Nat) ∣ b.length :=
    blocksOf_mem_length_dvd 4 (padTo data (if encrypted then 32 else 4)).length
      _ le_rfl _ hws4 hpad4 b hb
  have hdiff4 : (4 : Nat) ∣ (getFlashWriteSize isStub - b.length) :=
    Nat.dvd_sub' hws4 hb4
  have hdiff2 : (2 : Nat) ∣ (getFlashWriteSize isStub - b.length) :=
    dvd_trans (by decide) hdiff4
  unfold flashBlockSentChecksum
  exact (checksum_append_even_pad b _ 0xff hdiff2).symm

/-- C3 witness: a concrete `flash_data` call — 10 bytes `0xAB`, unencrypted,
stub not running.  The image is padded to 12 bytes, which form the single
block, and the sent checksum equals the XOR over the full `0x400`-byte padded
block. -/
theorem flashData_block_checksum_c3_witness :
    (padTo (List.replicate 10 0xab) (if false then 32 else 4)
        ∈ blocksOf (padTo (List.replicate 10 0xab) (if false then 32 else 4))
            (getFlashWriteSize false))
    ∧ flashBlockSentChecksum (padTo (List.replicate 10 0xab) (if false then 32 else 4))
        = checksum (padTo (List.replicate 10 0xab) (if false then 32 else 4)
            ++ List.replicate
                (getFlashWriteSize false
                  - (padTo (List.replicate 10 0xab) (if false then 32 else 4)).length)
                0xff) :=
  have hmem : padTo (List.replicate 10 0xab) (if false then 32 else 4)
      ∈ blocksOf (padTo (List.replicate 10 0xab) (if false then 32 else 4))
          (getFlashWriteSize false) := by
    have ht : (padTo (List.replicate 10 0xab) (if false then 32 else 4)).take
        (getFlashWriteSize false)
        = padTo (List.replicate 10 0xab) (if false then 32 else 4) := by decide
    rw [blocksOf, dif_neg (by decide), ht]
    exact List.mem_cons_self _ _
  ⟨hmem, flashData_block_checksum_c3 (List.replicate 10 0xab) false false _ hmem⟩

/-- C4: the claim states `get_erase_size(0x1000, 0x8000) = 0x4000`, i.e.
`floor((num_sectors + 1) / 2) * sector_size` with `num_sectors = 8`.
Evaluating the embedded code: the source computes
`Math.floor(((numSectors + 1) / 2) * sectorSize)` — the floor is applied only
after multiplying by the sector size, so the result is
`(8 + 1) * 0x1000 / 2 = 0x4800`, not `0x4000`. -/
theorem getEraseSize_c4_eval :
    getEraseSize 0x1000 0x8000 = 0x4800 ∧ getEraseSize 0x1000 0x8000 ≠ 0x4000 := by
  decide

/-- C5 counterexample: the claim states the block size is `0x200` when the
stub is not running.  The code (src/index.ts lines 910, 1347-1352) uses
`FLASH_WRITE_SIZE = 0x400` for every chip family when the stub is not
running. -/
theorem flashWriteSize_c5_counterexample :
    getFlashWriteSize false = 0x400 ∧ getFlashWriteSize false ≠ 0x200 := by
  decide

/-- C5 amended: for every `flash_begin(size, offset)`, the block size used is
`0x400` whenever the stub is not running (for every chip family, including
ESP32-S2) and `0x4000` when the stub is running, and both the number of
blocks announced by `flash_begin` and the number of blocks iterated by
`flash_data`'s loop equal `ceil(size / write_size)`. -/
theorem flashWriteSize_c5_amended (isStub : Bool) (size : Nat) (data : List Nat) :
    getFlashWriteSize isStub = (if isStub then 0x4000 else 0x400)
    ∧ flashBeginNumBlocks size (getFlashWriteSize isStub)
        = specCeil size (getFlashWriteSize isStub)
    ∧ (blocksOf data (getFlashWriteSize isStub)).length
        = specCeil data.length (getFlashWriteSize isStub) := by
  have hws : 0 < getFlashWriteSize isStub := by cases isStub <;> decide
  exact ⟨by cases isStub <;> rfl,
    numBlocks_eq_specCeil size _ hws,
    blocksOf_length_aux _ hws data.length data le_rfl⟩

/-! ## Helper lemmas on the SLIP escaping of command frames -/

theorem c0_not_mem_slipEncodeList (l : List Nat) (h : ∀ b ∈ l, b < 256) :
    0xc0 ∉ slipEncodeList l := by
  induction l with
  | nil => simp [slipEncodeList]
  | cons v rest ih =>
    have hv : v < 256 := h v (List.mem_cons_self _ _)
    have hrest : ∀ b ∈ rest, b < 256 := fun b hb => h b (List.mem_cons_of_mem _ hb)
    simp only [slipEncodeList, List.mem_append, not_or]
    refine ⟨?_, ih hrest⟩
    unfold slipEncodeByte
    by_cases h1 : v = 0xdb
    · simp [h1]
    · by_cases h2 : v = 0xc0
      · simp [h1, h2]
      · have : v % 256 = v := Nat.mod_eq_of_lt hv
        simp [h1, h2, this]
        omega

theorem leBytes_mem_lt (v n : Nat) : ∀ b ∈ leBytes v n, b < 256 := by
  intro b hb
  unfold leBytes at hb
  obtain ⟨i, _, rfl⟩ := List.mem_map.mp hb
  have : (v >>> (i * 8)) &&& 0xff ≤ 0xff := Nat.and_le_right
  omega

/-! ## Theorems for claims C6 and C7 -/

set_option maxRecDepth 4000 in
/-- C6 counterexample: the claim states every interior `0xC0` of a command
frame — including in the direction/opcode/length header bytes — appears only
escaped.  For opcode `0x02` and a payload of `0xC0 = 192` bytes the length
header's low byte is a literal `0xC0` at index 3 of the frame, in the
interior (the frame has 202 bytes) and not part of an escape pair (the byte
before it is the opcode `0x02`): the 5 header bytes are written with
`slipEncode` off. -/
theorem sendCommand_c6_counterexample :
    (sendCommandFrame 0x02 (List.replicate 0xc0 0x05) 0)[3]? = some 0xc0
    ∧ (sendCommandFrame 0x02 (List.replicate 0xc0 0x05) 0)[2]? = some 0x02
    ∧ (sendCommandFrame 0x02 (List.replicate 0xc0 0x05) 0).length = 202 := by
  decide

/-- C6 amended: for every opcode and payload, the command frame produced by
`send_command` begins and ends with `0xC0`; the five header bytes (direction,
opcode, 16-bit length) are written unescaped, and the escaped region —
the 32-bit checksum followed by the payload, both written with `slipEncode`
on — contains no literal `0xC0` (every `0xC0`/`0xDB` of it appears only as an
escape pair). -/
theorem sendCommand_c6_amended (opcode ck : Nat) (payload : List Nat)
    (h : ∀ b ∈ payload, b < 256) :
    (sendCommandFrame opcode payload ck).head? = some 0xc0
    ∧ (sendCommandFrame opcode payload ck).getLast? = some 0xc0
    ∧ 0xc0 ∉ slipEncodeList (packI ck ++ payload) := by
  refine ⟨by simp [sendCommandFrame], ?_, ?_⟩
  · unfold sendCommandFrame
    exact List.getLast?_concat _
  · apply c0_not_mem_slipEncodeList
    intro b hb
    rcases List.mem_append.mp hb with hb | hb
    · exact leBytes_mem_lt ck 4 b hb
    · exact h b hb

/-- C6 witness: the amended statement at opcode `0x03`, checksum `0xEF` and
the two-byte payload `[0xC0, 0xDB]`. -/
theorem sendCommand_c6_amended_witness :
    (∀ b ∈ [0xc0, 0xdb], b < 256)
    ∧ ((sendCommandFrame 0x03 [0xc0, 0xdb] 0xef).head? = some 0xc0
        ∧ (sendCommandFrame 0x03 [0xc0, 0xdb] 0xef).getLast? = some 0xc0
        ∧ 0xc0 ∉ slipEncodeList (packI 0xef ++ [0xc0, 0xdb])) :=
  ⟨by decide, sendCommand_c6_amended 0x03 0xef [0xc0, 0xdb] (by decide)⟩

/-- C7 counterexample: the claim states that when the stub is not running any
error raised by the `MEM_END` command is swallowed and `mem_finish` returns
normally.  In the current `memFinish` (src/index.ts lines 1535-1538) there is
no `try`/`catch`: with the stub not running and the command failing with a
timeout, `mem_finish` propagates the error instead of returning normally. -/
theorem memFinish_c7_counterexample :
    (memFinishB 0 (Except.error CmdError.timeout)).2 = Except.error CmdError.timeout
    ∧ (memFinishB 0 (Except.error CmdError.timeout)).2 ≠ Except.ok () := by
  refine ⟨rfl, fun h => ?_⟩
  rw [show (memFinishB 0 (Except.error CmdError.timeout)).2
      = Except.error CmdError.timeout from rfl] at h
  exact Except.noConfusion h

/-- C7 amended: `mem_finish(entry)` issues `MEM_END` with payload
`<II>(entry == 0 ? 1 : 0, entry)` under a 50 ms timeout, and any error raised
by the command propagates to the caller whether or not the stub is running;
only the older variant (src/index.ts lines 728-738) swallowed the error under
ROM (and used a 3000 ms timeout under stub). -/
theorem memFinish_c7_amended (entrypoint : Nat) (outcome : Except CmdError (List Nat)) :
    (memFinishB entrypoint outcome).1
      = (ESP_MEM_END, packII (if entrypoint = 0 then 1 else 0) entrypoint, 50)
    ∧ (memFinishB entrypoint outcome).2 = outcome.map (fun _ => ())
    ∧ (∀ e, (memFinishA false entrypoint (Except.error e)).2 = Except.ok ())
    ∧ (∀ e, (memFinishA true entrypoint (Except.error e)).2 = Except.error e) :=
  ⟨rfl, rfl, fun _ => rfl, fun _ => rfl⟩

/-! ## Theorems for claim C8 -/

/-- C8: whenever a listener is active (`listenRef > 0`) and at least
`minLength` bytes are buffered, `Reader.read` returns the buffered bytes and
leaves the reader with an empty buffer — an immediately following read
observes an empty buffer; without an active listener it fails with
`NotListening`. -/
theorem reader_read_c8 (st : ReaderState) (minLength : Nat)
    (hrun : st.running = true) :
    (0 < st.listenRef → minLength ≤ st.buffer.length →
        readFun minLength st = .ok (st.buffer, { st with buffer := [] }))
    ∧ (st.listenRef ≤ 0 → readFun minLength st = .error .notListening) := by
  constructor
  · intro hl hlen
    unfold readFun viewReset
    rw [if_neg (show ¬ st.listenRef ≤ 0 by omega), hrun,
      if_neg (show ¬ (true = false) by simp),
      if_neg (Nat.not_lt.mpr hlen)]
  · intro hl
    unfold readFun
    rw [if_pos hl]

/-- C8 witness: a running reader with one listener and three buffered bytes
serves a `read(2)` with the snapshot and clears the buffer; the same state
with no listener fails with `NotListening`. -/
theorem reader_read_c8_witness :
    readFun 2 ⟨true, 1, [1, 2, 3]⟩ = .ok ([1, 2, 3], ⟨true, 1, []⟩)
    ∧ readFun 2 ⟨true, 0, [1, 2, 3]⟩ = .error .notListening :=
  ⟨(reader_read_c8 ⟨true, 1, [1, 2, 3]⟩ 2 rfl).1 (by decide) (by decide),
   (reader_read_c8 ⟨true, 0, [1, 2, 3]⟩ 2 rfl).2 (by decide)⟩

/-! ## Invariant lemmas for the reader state machine -/

theorem readFun_ok_state (minLength : Nat) (st : ReaderState) (v : List Nat)
    (st' : ReaderState) (h : readFun minLength st = .ok (v, st')) :
    st' = { st with buffer := [] } ∧ 0 < st.listenRef := by
  unfold readFun viewReset at h
  split_ifs at h with h1 h2 h3
  cases h
  exact ⟨rfl, by omega⟩

theorem c9_step_inv (e : Ev) (st : ReaderState)
    (h : st.listenRef ≤ 0 → st.buffer = []) :
    (stepT e st).2.listenRef ≤ 0 → (stepT e st).2.buffer = [] := by
  obtain ⟨rn, lr, buf⟩ := st
  dsimp only at h
  cases e with
  | start =>
    simp only [stepT]
    split
    · exact h
    · intro _; rfl
  | stop =>
    simp only [stepT]
    split
    · intro _; rfl
    · exact h
  | chunk data =>
    simp only [stepT]
    split
    · rename_i hcond
      obtain ⟨-, hpos⟩ := hcond
      dsimp only
      intro hle
      exact absurd hle (by omega)
    · exact h
  | listen =>
    simp only [stepT]
    split
    · dsimp only
      intro hle
      exact h (by omega)
    · exact h
  | unlisten =>
    simp only [stepT]
    split
    · rename_i hlt
      dsimp only at hlt ⊢
      intro _
      exact h (by omega)
    · rename_i hge
      split
      · intro _; rfl
      · rename_i hne
        dsimp only at hge hne ⊢
        intro hle
        omega
  | silentReset =>
    intro _; rfl
  | readEv minLength =>
    simp only [stepT]
    rcases hr : readFun minLength ⟨rn, lr, buf⟩ with err | ⟨v, st'⟩
    · exact h
    · obtain ⟨hst', _⟩ := readFun_ok_state _ _ _ _ hr
      rw [hst']
      intro _
      rfl
  | packetEv =>
    simp only [stepT]
    split
    · exact h
    · rename_i hgt
      rcases hp : packetFun buf 0 with _ | ⟨v, off⟩
      · dsimp only
        intro hle
        exact absurd hle hgt
      · dsimp only
        intro hle
        exact absurd hle hgt

theorem c9_fold_inv (tr : List Ev) (st : ReaderState)
    (h : st.listenRef ≤ 0 → st.buffer = []) :
    (tr.foldl (fun s e => (stepT e s).2) st).listenRef ≤ 0 →
      (tr.foldl (fun s e => (stepT e s).2) st).buffer = [] := by
  induction tr generalizing st with
  | nil => exact h
  | cons e tr ih => exact ih _ (c9_step_inv e st h)

theorem c10_step_nonneg (e : Ev) (st : ReaderState)
    (hok : (stepT e st).1 = false) (h : 0 ≤ st.listenRef) :
    0 ≤ (stepT e st).2.listenRef := by
  obtain ⟨rn, lr, buf⟩ := st
  dsimp only at h
  cases e with
  | start =>
    simp only [stepT] at hok ⊢
    split <;> exact h
  | stop =>
    simp only [stepT] at hok ⊢
    split <;> exact h
  | chunk data =>
    simp only [stepT] at hok ⊢
    split <;> exact h
  | listen =>
    simp only [stepT] at hok ⊢
    split
    · dsimp only at h ⊢
      omega
    · exact h
  | unlisten =>
    simp only [stepT] at hok ⊢
    by_cases hneg : lr - 1 < 0
    · rw [if_pos hneg] at hok
      simp at hok
    · rw [if_neg hneg]
      by_cases hz : lr - 1 = 0
      · rw [if_pos hz]
        dsimp only
        omega
      · rw [if_neg hz]
        dsimp only
        omega
  | silentReset =>
    exact h
  | readEv minLength =>
    simp only [stepT] at hok ⊢
    rcases hr : readFun minLength ⟨rn, lr, buf⟩ with err | ⟨v, st'⟩
    · exact h
    · obtain ⟨hst', _⟩ := readFun_ok_state _ _ _ _ hr
      rw [hst']
      exact h
  | packetEv =>
    simp only [stepT] at hok ⊢
    split
    · exact h
    · rcases hp : packetFun buf 0 with _ | ⟨v, off⟩
      · exact h
      · exact h

theorem c10_foldl_none (tr : List Ev) :
    tr.foldl
      (fun acc e => acc.bind fun st =>
        let r := stepT e st
        if r.1 then none else some r.2)
      none = none := by
  induction tr with
  | nil => rfl
  | cons e tr ih => exact ih

theorem c10_fold (tr : List Ev) :
    ∀ (st0 : ReaderState), 0 ≤ st0.listenRef →
      ∀ st,
        tr.foldl
          (fun acc e => acc.bind fun st =>
            let r := stepT e st
            if r.1 then none else some r.2)
          (some st0) = some st →
        0 ≤ st.listenRef := by
  induction tr with
  | nil =>
    intro st0 h0 st hst
    injection hst with h1
    rw [← h1]
    exact h0
  | cons e tr ih =>
    intro st0 h0 st hst
    rw [List.foldl_cons] at hst
    by_cases hthrew : (stepT e st0).1 = true
    · rw [show ((some st0).bind fun st =>
          let r := stepT e st
          if r.1 then none else some r.2) = none by
            simp [hthrew]] at hst
      rw [c10_foldl_none tr] at hst
      cases hst
    · have hfalse : (stepT e st0).1 = false := by
        cases hb : (stepT e st0).1
        · rfl
        · exact absurd hb hthrew
      rw [show ((some st0).bind fun st =>
          let r := stepT e st
          if r.1 then none else some r.2) = some (stepT e st0).2 by
            simp [hfalse]] at hst
      exact ih (stepT e st0).2 (c10_step_nonneg e st0 hfalse h0) st hst

/-! ## Theorems for claims C9 and C10 -/

/-- C9: in every reachable reader state, whenever `listen_ref = 0` the
reader's byte buffer is empty: chunks arriving while no listener is active
are discarded by the background loop, and the unlisten call that drops the
count to zero resets the buffer. -/
theorem reader_buffer_inv_c9 (tr : List Ev)
    (h : (runTrace tr).listenRef = 0) : (runTrace tr).buffer = [] :=
  c9_fold_inv tr initReader (fun _ => rfl) (le_of_eq h)

/-- C9 witness: after start, listen, a two-byte chunk and the final unlisten,
the listener count is zero and the buffer is empty. -/
theorem reader_buffer_inv_c9_witness :
    (runTrace [Ev.start, Ev.listen, Ev.chunk [1, 2], Ev.unlisten]).listenRef = 0
    ∧ (runTrace [Ev.start, Ev.listen, Ev.chunk [1, 2], Ev.unlisten]).buffer = [] :=
  ⟨by decide, reader_buffer_inv_c9 _ (by decide)⟩

/-- C10: the listener count never silently underflows.  Any event sequence
that completes without a throw leaves `listen_ref ≥ 0`; and from any state
with `listen_ref ≤ 0`, invoking an unlisten handle throws ("Listen ref count
is negative"). -/
theorem listenRef_nonneg_c10 (tr : List Ev) (st : ReaderState)
    (h : runTraceOk tr = some st) :
    0 ≤ st.listenRef
    ∧ ∀ s : ReaderState, s.listenRef ≤ 0 → (stepT Ev.unlisten s).1 = true := by
  constructor
  · unfold runTraceOk at h
    exact c10_fold tr initReader le_rfl st h
  · intro s hs
    unfold stepT
    simp only
    rw [if_pos (by omega)]

/-- C10 witness: the non-throwing sequence start, listen, unlisten ends in a
state with listener count `0 ≥ 0`. -/
theorem listenRef_nonneg_c10_witness :
    runTraceOk [Ev.start, Ev.listen, Ev.unlisten]
        = some ⟨true, 0, []⟩
    ∧ (0 : Int) ≤ (⟨true, 0, []⟩ : ReaderState).listenRef :=
  ⟨by decide,
   (listenRef_nonneg_c10 [Ev.start, Ev.listen, Ev.unlisten] ⟨true, 0, []⟩ (by decide)).1⟩

end EsptoolJs
